import Mathlib

/-!
Verification development for the CSVFolderGenerator repository.

The repository's core logic lives in two Python modules:

* `src/assets/reorder.py` — `CSVReorder`, a CSV re-ordering utility with a
  composite sort key (`_create_sort_key`), a fixed-format date parser
  (`parse_date` / `DATE_FORMATS`), and a `sorted(...)` call with a key
  function and a `reverse` flag.
* `src/assets/create_folders_from_csv.py` — two folder-derivation functions
  (`create_folders_from_csv_language_en`, `create_folders_from_csv_auto_en`)
  plus `sanitize_folder_name`.

This file shallowly embeds those functions.  Python strings are `String`,
CSV rows are association lists `List (String × String)` (a `csv.DictReader`
row restricted to the header's keys), `datetime` values produced by
`strptime` are `PyDate` records, and filesystem effects are made explicit:
the folder-derivation functions return the ordered trace of directories
they create, and the reorder pipeline returns the written file (path,
header, rows) or an error.

Python's `sorted` is a stable sort; it is modelled with `List.mergeSort` on
the enumerated row list, using a comparator that breaks ties on the
original index.  Python comparison of sort-key tuples can raise `TypeError`
when a parsed `datetime` meets an unparsed `str` at the same position; the
partial comparison `pyCmpKey` returns `none` exactly in that situation, and
the reorder model fails with a `typeError` when any two rows' keys are not
comparable, mirroring the `TypeError` that `sorted` raises (which
`reorder_csv` wraps into a `CSVReorderError`).
-/

set_option maxHeartbeats 1000000

namespace CSVFolderGen

/-! ## Three-way comparisons -/

/-- Laws of a well-behaved three-way comparison: antisymmetry of `swap`
and transitivity of the induced `≤` (`cmp a b ≠ .gt`). -/
structure CmpLaws {α : Type} (cmp : α → α → Ordering) : Prop where
  symm : ∀ a b, (cmp a b).swap = cmp b a
  leTrans : ∀ a b c, cmp a b ≠ .gt → cmp b c ≠ .gt → cmp a c ≠ .gt

/-- Lexicographic comparison of lists, stopping at the first component that
does not compare `.eq`; a strict prefix compares less than the longer list.
This is exactly Python's tuple comparison on tuples of comparable values. -/
def cmpLex {α : Type} (cmp : α → α → Ordering) : List α → List α → Ordering
  | [], [] => .eq
  | [], _ :: _ => .lt
  | _ :: _, [] => .gt
  | a :: as, b :: bs =>
    match cmp a b with
    | .eq => cmpLex cmp as bs
    | o => o

/-- Comparison of characters by Unicode code point, as Python compares the
characters of a `str`. -/
def cmpChar (a b : Char) : Ordering := compare a.toNat b.toNat

/-- Python string comparison: lexicographic over code points. -/
def cmpStr (a b : String) : Ordering := cmpLex cmpChar a.data b.data

/-! ## Python string primitives

`str.strip` / `str.lower` / `str.upper` are modelled directly over the
character list (the ASCII fragment of their Unicode behaviour, which is all
the repository's data exercises).  The corresponding `String` library
functions are avoided because they are defined by well-founded recursion on
byte positions, which does not reduce definitionally. -/

/-- Whitespace as stripped by Python's `str.strip()` (ASCII fragment). -/
def isPySpace (c : Char) : Bool := c = ' ' || c = '\t' || c = '\n' || c = '\r'

/-- Drop the matching characters from both ends of a character list. -/
def stripEnds (p : Char → Bool) (l : List Char) : List Char :=
  ((l.dropWhile p).reverse.dropWhile p).reverse

/-- Python `s.strip()`. -/
def pyStrip (s : String) : String := ⟨stripEnds isPySpace s.data⟩

/-- Python `s.lower()` (ASCII fragment). -/
def pyLower (s : String) : String := ⟨s.data.map Char.toLower⟩

/-- Python `s.upper()` (ASCII fragment). -/
def pyUpper (s : String) : String := ⟨s.data.map Char.toUpper⟩

/-! ## Dates and `CSVReorder.parse_date` -/

/-- The date part of a `datetime.datetime` produced by
`datetime.strptime` in `CSVReorder.parse_date` (the time part is always
midnight, so it never influences comparisons). -/
structure PyDate where
  year : Nat
  month : Nat
  day : Nat
deriving DecidableEq

/-- Order-preserving encoding of a (calendar-valid) date; `datetime`
comparison is chronological, i.e. lexicographic on (year, month, day),
and `month < 100` and `day < 100` make this encoding faithful. -/
def PyDate.enc (d : PyDate) : Nat := d.year * 10000 + d.month * 100 + d.day

/-- `datetime` comparison (dates only). -/
def cmpDate (a b : PyDate) : Ordering := compare a.enc b.enc

/-- One directive of a `strptime` format string: a literal character,
`%Y`, `%m` or `%d`.  These are the only directives occurring in
`CSVReorder.DATE_FORMATS`. -/
inductive FTok where
  | lit (c : Char)
  | fY
  | fm
  | fd
deriving DecidableEq

/-- `CSVReorder.DATE_FORMATS`, in source order:
`%Y-%m-%d`, `%Y/%m/%d`, `%d-%m-%Y`, `%d/%m/%Y`, `%Y`,
`%Y-%m`, `%m-%Y`, `%m/%d/%Y`, `%d.%m.%Y`, `%Y.%m.%d`. -/
def DATE_FORMATS : List (List FTok) :=
  [[.fY, .lit '-', .fm, .lit '-', .fd],
   [.fY, .lit '/', .fm, .lit '/', .fd],
   [.fd, .lit '-', .fm, .lit '-', .fY],
   [.fd, .lit '/', .fm, .lit '/', .fY],
   [.fY],
   [.fY, .lit '-', .fm],
   [.fm, .lit '-', .fY],
   [.fm, .lit '/', .fd, .lit '/', .fY],
   [.fd, .lit '.', .fm, .lit '.', .fY],
   [.fY, .lit '.', .fm, .lit '.', .fd]]

/-- Numeric value of a decimal digit character, if it is one. -/
def digitVal (c : Char) : Option Nat :=
  if c.isDigit then some (c.toNat - 48) else none

/-- The fields captured while matching a format against a string
(CPython `_strptime` fills defaults year 1900, month 1, day 1). -/
structure DFields where
  y : Option Nat
  m : Option Nat
  d : Option Nat

/-- CPython `_strptime` regex matching for the directives used in
`DATE_FORMATS`, over the whole string (strptime rejects unconverted
trailing data).  `%Y` matches exactly four digits; `%m` matches
`1[0-2]|0[1-9]|[1-9]` (a two-digit month 01–12, else one digit 1–9);
`%d` matches `3[01]|[12][0-9]|0[1-9]|[1-9]` (a two-digit day 01–31, else
one digit 1–9).  Matching a two-digit alternative backtracks to the
one-digit alternative if the rest of the format cannot match after it,
as the regex engine does. -/
def matchToks : List FTok → List Char → DFields → Option DFields
  | [], s, f => if s = [] then some f else none
  | .lit c :: rest, s, f =>
    match s with
    | [] => none
    | x :: s' => if x = c then matchToks rest s' f else none
  | .fY :: rest, s, f =>
    match s with
    | c1 :: c2 :: c3 :: c4 :: s' =>
      match digitVal c1, digitVal c2, digitVal c3, digitVal c4 with
      | some a, some b, some c, some d =>
        matchToks rest s' { f with y := some (a * 1000 + b * 100 + c * 10 + d) }
      | _, _, _, _ => none
    | _ => none
  | .fm :: rest, s, f =>
    match s with
    | [] => none
    | [c1] =>
      match digitVal c1 with
      | some a => if 1 ≤ a then matchToks rest [] { f with m := some a } else none
      | none => none
    | c1 :: c2 :: s' =>
      (match digitVal c1, digitVal c2 with
       | some a, some b =>
         if 1 ≤ a * 10 + b ∧ a * 10 + b ≤ 12 then
           matchToks rest s' { f with m := some (a * 10 + b) }
         else none
       | _, _ => none).orElse
      (fun _ =>
        match digitVal c1 with
        | some a => if 1 ≤ a then matchToks rest (c2 :: s') { f with m := some a } else none
        | none => none)
  | .fd :: rest, s, f =>
    match s with
    | [] => none
    | [c1] =>
      match digitVal c1 with
      | some a => if 1 ≤ a then matchToks rest [] { f with d := some a } else none
      | none => none
    | c1 :: c2 :: s' =>
      (match digitVal c1, digitVal c2 with
       | some a, some b =>
         if 1 ≤ a * 10 + b ∧ a * 10 + b ≤ 31 then
           matchToks rest s' { f with d := some (a * 10 + b) }
         else none
       | _, _ => none).orElse
      (fun _ =>
        match digitVal c1 with
        | some a => if 1 ≤ a then matchToks rest (c2 :: s') { f with d := some a } else none
        | none => none)

/-- Gregorian leap year, as `datetime` uses. -/
def isLeap (y : Nat) : Bool := y % 4 = 0 && (y % 100 ≠ 0 || y % 400 = 0)

/-- Number of days of a month, as `datetime` validates. -/
def daysInMonth (y m : Nat) : Nat :=
  if m = 2 then (if isLeap y then 29 else 28)
  else if m = 4 ∨ m = 6 ∨ m = 9 ∨ m = 11 then 30
  else 31

/-- `datetime.strptime(s, fmt)` restricted to the directives of
`DATE_FORMATS`: regex match of the whole string, defaults year 1900,
month 1, day 1, then the `datetime` constructor's range validation
(`MINYEAR = 1 ≤ year ≤ 9999 = MAXYEAR`, month and day in calendar range);
`none` models the `ValueError` that `parse_date` catches. -/
def strptime (s : String) (fmt : List FTok) : Option PyDate :=
  match matchToks fmt s.data ⟨none, none, none⟩ with
  | none => none
  | some f =>
    let y := f.y.getD 1900
    let m := f.m.getD 1
    let d := f.d.getD 1
    if 1 ≤ y ∧ y ≤ 9999 ∧ 1 ≤ m ∧ m ≤ 12 ∧ 1 ≤ d ∧ d ≤ daysInMonth y m then
      some ⟨y, m, d⟩
    else none

/-- Result of `CSVReorder.parse_date`: a `datetime` or the input string. -/
inductive DateOrStr where
  | date (d : PyDate)
  | str (s : String)
deriving DecidableEq

/-- The `for fmt in self.DATE_FORMATS` loop of `parse_date`: first
successful parse wins. -/
def tryFormats (t : String) : List (List FTok) → Option PyDate
  | [] => none
  | fmt :: fs =>
    match strptime t fmt with
    | some d => some d
    | none => tryFormats t fs

/-- `CSVReorder.parse_date`.  A string that is empty after stripping is
returned unchanged (unstripped); otherwise the stripped string is matched
against `DATE_FORMATS` in order, and if no format matches the stripped
string is returned (the warning log line has no observable effect). -/
def parse_date (s : String) : DateOrStr :=
  if pyStrip s = "" then .str s
  else
    match tryFormats (pyStrip s) DATE_FORMATS with
    | some d => .date d
    | none => .str (pyStrip s)

/-! ## Sort keys (`CSVReorder._create_sort_key`) -/

/-- One component of the composite sort-key tuple: the language-priority
index (`int`), a parsed date (`date`), or a string (`str`). -/
inductive KeyPart where
  | int (n : Nat)
  | date (d : PyDate)
  | str (s : String)
deriving DecidableEq

/-- Type tag used to extend Python's comparison to a total one on
`KeyPart` (only ever reached on pairs Python itself cannot compare). -/
def KeyPart.rank : KeyPart → Nat
  | .int _ => 0
  | .date _ => 1
  | .str _ => 2

/-- Total comparison on key components.  On pairs of the same kind it is
exactly Python's comparison (`int` by value, `datetime` chronologically,
`str` lexicographically by code point); on mixed kinds — where Python
raises `TypeError` — it falls back to the type tag, which keeps it a total
order usable by the sort model.  The reorder model only ever sorts with it
after `keysComparable` has ruled the mixed cases out. -/
def cmpPart : KeyPart → KeyPart → Ordering
  | .int a, .int b => compare a b
  | .date a, .date b => cmpDate a b
  | .str a, .str b => cmpStr a b
  | a, b => compare a.rank b.rank

/-- Python's partial comparison of key components: `none` models the
`TypeError` raised when comparing values of different types. -/
def pyCmpPart : KeyPart → KeyPart → Option Ordering
  | .int a, .int b => some (compare a b)
  | .date a, .date b => some (cmpDate a b)
  | .str a, .str b => some (cmpStr a b)
  | _, _ => none

/-- Total comparison of composite keys (Python tuple comparison for
comparable tuples). -/
def cmpKey : List KeyPart → List KeyPart → Ordering := cmpLex cmpPart

/-- Python's comparison of two sort-key tuples: lexicographic, stopping at
the first component pair that is not equal; raises (`none`) if it reaches a
mixed-type pair before deciding. -/
def pyCmpKey : List KeyPart → List KeyPart → Option Ordering
  | [], [] => some .eq
  | [], _ :: _ => some .lt
  | _ :: _, [] => some .gt
  | a :: as, b :: bs =>
    match pyCmpPart a b with
    | none => none
    | some .eq => pyCmpKey as bs
    | some o => some o

/-- A CSV row as produced by `csv.DictReader`: a mapping from column name
to string value, modelled as an association list over the header. -/
abbrev Row := List (String × String)

/-- `row.get(key, "")`. -/
def rowGet (r : Row) (k : String) : String :=
  ((r.find? (fun p => p.1 == k)).map Prod.snd).getD ""

/-- `SortColumn` from `reorder.py`: a column name and whether its values
are parsed as dates (`__post_init__` additionally strips the name and
rejects blank names; claims here never depend on that normalisation). -/
structure SortColumn where
  name : String
  is_date : Bool
deriving DecidableEq

/-- `CSVReorderConfig` from `reorder.py`.  The `encoding` field only
affects byte-level file I/O, which the model abstracts away; `output_tag`
embeds the `output_prefix` field (renamed). -/
structure CSVReorderConfig where
  sort_columns : List SortColumn
  reverse : Bool
  use_language_sorting : Bool
  language_column : String
  language_order : List String
  output_tag : String
deriving DecidableEq

/-- `CSVReorder._create_sort_key`: an optional language-priority index
(`language_order.index(lang)`, or `len(language_order)` when absent, on the
stripped language value — exact, case-sensitive matching), followed by one
component per configured sort column: for a date column with a non-empty
value, `parse_date`'s result (a date or the unparsed string); otherwise the
lowercased value, or `""` for an empty value. -/
def create_sort_key (cfg : CSVReorderConfig) (row : Row) : List KeyPart :=
  (if cfg.use_language_sorting then
    [KeyPart.int (cfg.language_order.indexOf (pyStrip (rowGet row cfg.language_column)))]
  else []) ++
  cfg.sort_columns.map (fun col =>
    let val := rowGet row col.name
    if col.is_date && val != "" then
      match parse_date val with
      | .date d => KeyPart.date d
      | .str s => KeyPart.str s
    else if val != "" then KeyPart.str (pyLower val)
    else KeyPart.str "")

/-! ## The sort (`sorted(data, key=self._create_sort_key, reverse=...)`)

CPython's `sorted` is a stable sort; with `reverse=True` it reverses the
list, sorts ascending stably and reverses again, which orders rows
descending by key with ties kept in original input order.  Both modes are
captured by one stable `mergeSort` on the enumerated row list whose
comparator orders by key — flipped when `reverse` is set — and breaks key
ties by the original index. -/

/-- The key comparison the sort uses: ascending by composite key, or
descending when `cfg.reverse` is set (CPython implements `reverse=True` by
reversing before and after the ascending sort, which amounts to flipping
the key comparison while still breaking ties by input position). -/
def rowCmp (cfg : CSVReorderConfig) (p q : Nat × Row) : Ordering :=
  if cfg.reverse then cmpKey (create_sort_key cfg q.2) (create_sort_key cfg p.2)
  else cmpKey (create_sort_key cfg p.2) (create_sort_key cfg q.2)

/-- A boolean total preorder from a three-way comparison with a
tie-breaker. -/
def tieBreakLE {α : Type} (cmp : α → α → Ordering) (tie : α → α → Bool) (a b : α) : Bool :=
  match cmp a b with
  | .lt => true
  | .gt => false
  | .eq => tie a b

/-- Comparator for the sort model: by composite key (direction given by
`cfg.reverse`), ties by original row index. -/
def rowLE (cfg : CSVReorderConfig) : (Nat × Row) → (Nat × Row) → Bool :=
  tieBreakLE (rowCmp cfg) (fun p q => decide (p.1 ≤ q.1))

/-- Insert `x` before the first element `y` with `le x y`. -/
def insertSorted {α : Type} (le : α → α → Bool) (x : α) : List α → List α
  | [] => [x]
  | y :: ys => if le x y then x :: y :: ys else y :: insertSorted le x ys

/-- Stable insertion sort.  Used to model CPython's stable `sorted`: for
the total preorder `rowLE cfg` (whose key ties are broken by the original
index) every stable sort — in particular CPython's timsort — produces the
unique `le`-sorted permutation, which this function computes. -/
def stableSort {α : Type} (le : α → α → Bool) : List α → List α
  | [] => []
  | x :: xs => insertSorted le x (stableSort le xs)

/-- The sorted, still-enumerated row list. -/
def pySortIndexed (cfg : CSVReorderConfig) (rows : List Row) : List (Nat × Row) :=
  stableSort (rowLE cfg) rows.enum

/-- The row order `sorted(data, key=self._create_sort_key, reverse=cfg.reverse)`
produces. -/
def pySortRows (cfg : CSVReorderConfig) (rows : List Row) : List Row :=
  (pySortIndexed cfg rows).map Prod.snd

/-- All pairwise Python comparisons between the rows' sort keys are
defined; when this fails, CPython's sort raises `TypeError` on any list
where the incomparable pair is actually compared (it always is for the
two-row lists used in the counterexamples below). -/
def keysComparable (cfg : CSVReorderConfig) (rows : List Row) : Bool :=
  rows.all (fun r1 => rows.all (fun r2 =>
    (pyCmpKey (create_sort_key cfg r1) (create_sort_key cfg r2)).isSome))

/-! ## `CSVReorder.reorder_csv` and `reorder_csv_safe` -/

/-- The distinguishable failure modes of `reorder_csv` (all raised as
`CSVReorderError` in the source, with distinct messages). -/
inductive ReorderError where
  | notFound
  | noHeader
  | noDataRows
  | noColumns
  | sortColumnsMissing (names : List String)
  | languageColumnMissing (name : String)
  | typeError
deriving DecidableEq

/-- The parsed content of the input CSV file: `fieldnames` is `none` when
`DictReader` finds no header row (the byte-level delimiter sniffing of
`_read_csv_file` is abstracted away — it only selects how the same file
parses, and the model takes the parsed table as input). -/
structure CSVFile where
  fieldnames : Option (List String)
  rows : List Row
deriving DecidableEq

/-- `os.path.join` / `pathlib` `/` on POSIX, for the argument shapes the
code produces (a possibly empty base and a relative name). -/
def osPathJoin (a b : String) : String :=
  if a = "" then b
  else if a.data.getLast? = some '/' then a ++ b
  else a ++ "/" ++ b

/-- The file `_write_csv_file` produces: its path, header and rows. -/
structure WrittenCSV where
  path : String
  fieldnames : List String
  rows : List Row
deriving DecidableEq

/-- `CSVReorder.reorder_csv`, with the filesystem made explicit: the input
file is `none` when missing, and the result is the written file.  The
pipeline order follows the source: existence check, read (no header row →
error), empty-data check, `_validate_csv_columns` (no columns, missing sort
columns as a set difference, missing language column), then the sort —
which raises `TypeError` (wrapped into a `CSVReorderError`) when two rows'
keys are not comparable — and finally the write of
`output_directory / (output_prefix + input file name)`. -/
def reorder_csv (cfg : CSVReorderConfig) (file : Option CSVFile)
    (input_name : String) (output_directory : String) : Except ReorderError WrittenCSV :=
  match file with
  | none => .error .notFound
  | some f =>
    match f.fieldnames with
    | none => .error .noHeader
    | some fns =>
      if f.rows = [] then .error .noDataRows
      else if fns = [] then .error .noColumns
      else
        let missing := ((cfg.sort_columns.map SortColumn.name).eraseDups).filter
          (fun n => !fns.contains n)
        if missing ≠ [] then .error (.sortColumnsMissing missing)
        else if cfg.use_language_sorting && !fns.contains cfg.language_column then
          .error (.languageColumnMissing cfg.language_column)
        else if keysComparable cfg f.rows then
          .ok ⟨osPathJoin output_directory (cfg.output_tag ++ input_name),
               fns, pySortRows cfg f.rows⟩
        else .error .typeError

/-- `CSVReorder.reorder_csv_safe`: `reorder_csv` with every
`CSVReorderError` (and any other exception) caught and turned into `None`. -/
def reorder_csv_safe (cfg : CSVReorderConfig) (file : Option CSVFile)
    (input_name : String) (output_directory : String) : Option WrittenCSV :=
  match reorder_csv cfg file input_name output_directory with
  | .ok r => some r
  | .error _ => none

/-! ## Folder derivation (`create_folders_from_csv.py`) -/

/-- The `invalid_chars` string of `sanitize_folder_name`. -/
def invalid_chars : List Char := ['<', '>', ':', '"', '/', '\\', '|', '?', '*']

/-- The characters removed by `name.strip('. ')`. -/
def isDotSpace (c : Char) : Bool := c = '.' || c = ' '

/-- `sanitize_folder_name`: the `for char in invalid_chars` loop replaces
each invalid character by an underscore (each iteration is
`name.replace(char, '_')`, a pointwise map over the characters), then
`strip('. ')` trims leading and trailing periods and spaces. -/
def sanitize_folder_name (name : String) : String :=
  ⟨stripEnds isDotSpace
    (invalid_chars.foldl (fun acc ch => acc.map (fun c => if c = ch then '_' else c))
      name.data)⟩

/-- Failure modes of the folder-derivation functions.  In the source,
`fileNotFound` is a re-raised `FileNotFoundError`; the other kinds are
raised as `ValueError`/`TypeError` and re-raised wrapped in a generic
`Exception`, but remain distinguishable by message. -/
inductive FolderError where
  | fileNotFound
  | headersNotFound (missing : List String)
  | languageColumnMissing
  | noFieldnames
deriving DecidableEq

instance {ε α : Type} [DecidableEq ε] [DecidableEq α] : DecidableEq (Except ε α)
  | .ok a, .ok b =>
    if h : a = b then isTrue (by rw [h]) else isFalse (by simp [h])
  | .ok _, .error _ => isFalse (by simp)
  | .error _, .ok _ => isFalse (by simp)
  | .error a, .error b =>
    if h : a = b then isTrue (by rw [h]) else isFalse (by simp [h])

/-- Outcome of a run of a folder-derivation function: the returned value
(or error), the ordered trace of every directory the run created
(`Path(...).mkdir(parents=True, exist_ok=True)` calls, which always
succeed in this model), and the skipped-row tally. -/
structure FolderRunResult where
  result : Except FolderError (List String)
  createdDirs : List String
  skippedRows : Nat
deriving DecidableEq

/-- The inner `for header in header_mapping` loop of both functions:
the stripped, non-empty values of the requested headers, in header order. -/
def folderParts (headers : List String) (row : Row) : List String :=
  headers.filterMap (fun h =>
    let v := pyStrip (rowGet row h)
    if v = "" then none else some v)

/-- One iteration of the row loop of `create_folders_from_csv_language_en`:
skip (and count) the row unless its stripped, uppercased `language` value
equals the uppercased filter; otherwise derive the folder name from the
non-empty parts and create the directory unless there are no parts.
The accumulator is (created folders so far, skipped rows so far). -/
def processLanguageRow (header_mapping : List String)
    (base_path separator filter_language : String)
    (acc : List String × Nat) (row : Row) : List String × Nat :=
  let language := pyUpper (pyStrip (rowGet row "language"))
  if language ≠ pyUpper filter_language then (acc.1, acc.2 + 1)
  else
    let parts := folderParts header_mapping row
    if parts = [] then acc
    else
      (acc.1 ++ [osPathJoin base_path (sanitize_folder_name (String.intercalate separator parts))],
       acc.2)

/-- `create_folders_from_csv_language_en`, with the filesystem made
explicit (`csv_file = none` models a missing file; `createdDirs` records
every `mkdir` in order, starting with the unconditional
`Path(base_path).mkdir(parents=True, exist_ok=True)`).  A CSV without a
header row makes `DictReader.fieldnames` `None`, and the membership tests
on it raise `TypeError` (modelled as `noFieldnames`). -/
def create_folders_from_csv_language_en (csv_file : Option CSVFile)
    (header_mapping : List String) (base_path separator filter_language : String) :
    FolderRunResult :=
  match csv_file with
  | none => ⟨.error .fileNotFound, [base_path], 0⟩
  | some f =>
    match f.fieldnames with
    | none => ⟨.error .noFieldnames, [base_path], 0⟩
    | some fns =>
      let missing := header_mapping.filter (fun h => !fns.contains h)
      if missing ≠ [] then ⟨.error (.headersNotFound missing), [base_path], 0⟩
      else if !fns.contains "language" then ⟨.error .languageColumnMissing, [base_path], 0⟩
      else
        let out := f.rows.foldl
          (processLanguageRow header_mapping base_path separator filter_language) ([], 0)
        ⟨.ok out.1, base_path :: out.1, out.2⟩

/-- The headers that `create_folders_from_csv_auto_en` leaves unsuffixed. -/
def no_suffix_headers : List String := ["year", "size"]

/-- The header-resolution loop of `create_folders_from_csv_auto_en`: each
logical header maps to itself when its lowercasing is `year` or `size`,
otherwise to `<header>_en`. -/
def resolveAutoHeaders (header_mapping : List String) : List String :=
  header_mapping.foldl (fun acc header =>
    if no_suffix_headers.contains (pyLower header) then acc ++ [header]
    else acc ++ [header ++ "_en"]) []

/-- One iteration of the row loop of `create_folders_from_csv_auto_en`. -/
def processAutoRow (actual_headers : List String) (base_path separator : String)
    (acc : List String) (row : Row) : List String :=
  let parts := folderParts actual_headers row
  if parts = [] then acc
  else acc ++ [osPathJoin base_path (sanitize_folder_name (String.intercalate separator parts))]

/-- `create_folders_from_csv_auto_en`, with the filesystem made explicit
exactly as for the language variant. -/
def create_folders_from_csv_auto_en (csv_file : Option CSVFile)
    (header_mapping : List String) (base_path separator : String) : FolderRunResult :=
  match csv_file with
  | none => ⟨.error .fileNotFound, [base_path], 0⟩
  | some f =>
    match f.fieldnames with
    | none => ⟨.error .noFieldnames, [base_path], 0⟩
    | some fns =>
      let actual := resolveAutoHeaders header_mapping
      let missing := actual.filter (fun h => !fns.contains h)
      if missing ≠ [] then ⟨.error (.headersNotFound missing), [base_path], 0⟩
      else
        let folders := f.rows.foldl (processAutoRow actual base_path separator) []
        ⟨.ok folders, base_path :: folders, 0⟩

/-! # Theorems

First the generic theory of lawful three-way comparisons, then the
properties of the stable sort model, then one theorem per claim. -/

theorem natCmpLaws : CmpLaws (compare : Nat → Nat → Ordering) := by
  constructor
  · exact fun a b => Nat.compare_swap a b
  · intro a b c hab hbc
    rw [Nat.compare_ne_gt] at hab hbc ⊢
    omega

theorem CmpLaws.comap {α β : Type} {cmp : β → β → Ordering} (L : CmpLaws cmp) (f : α → β) :
    CmpLaws (fun a b => cmp (f a) (f b)) := by
  constructor
  · exact fun a b => L.symm (f a) (f b)
  · exact fun a b c => L.leTrans (f a) (f b) (f c)

theorem CmpLaws.flip {α : Type} {cmp : α → α → Ordering} (L : CmpLaws cmp) :
    CmpLaws (fun a b => cmp b a) := by
  constructor
  · exact fun a b => L.symm b a
  · exact fun a b c hab hbc => L.leTrans c b a hbc hab

theorem CmpLaws.swap_cases {α : Type} {cmp : α → α → Ordering} (L : CmpLaws cmp) (a b : α) :
    (cmp a b = .lt ∧ cmp b a = .gt) ∨ (cmp a b = .eq ∧ cmp b a = .eq) ∨
      (cmp a b = .gt ∧ cmp b a = .lt) := by
  have h := L.symm a b
  cases hab : cmp a b <;> rw [hab] at h <;> simp [Ordering.swap] at h <;> simp [h]

theorem CmpLaws.cmp_refl {α : Type} {cmp : α → α → Ordering} (L : CmpLaws cmp) (a : α) :
    cmp a a = .eq := by
  rcases L.swap_cases a a with ⟨h1, h2⟩ | ⟨h1, _⟩ | ⟨h1, h2⟩ <;> simp_all

theorem CmpLaws.eq_symm {α : Type} {cmp : α → α → Ordering} (L : CmpLaws cmp) {a b : α}
    (h : cmp a b = .eq) : cmp b a = .eq := by
  rcases L.swap_cases a b with ⟨h1, _⟩ | ⟨_, h2⟩ | ⟨h1, _⟩ <;> simp_all

theorem CmpLaws.ne_gt_of_lt {α : Type} {cmp : α → α → Ordering} {a b : α}
    (h : cmp a b = .lt) : cmp a b ≠ .gt := by simp [h]

theorem CmpLaws.ne_gt_of_eq {α : Type} {cmp : α → α → Ordering} {a b : α}
    (h : cmp a b = .eq) : cmp a b ≠ .gt := by simp [h]

theorem CmpLaws.cmp_eq_trans {α : Type} {cmp : α → α → Ordering} (L : CmpLaws cmp) {a b c : α}
    (hab : cmp a b = .eq) (hbc : cmp b c = .eq) : cmp a c = .eq := by
  have h1 : cmp a c ≠ .gt := L.leTrans a b c (by simp [hab]) (by simp [hbc])
  have h2 : cmp c a ≠ .gt :=
    L.leTrans c b a (by simp [L.eq_symm hbc]) (by simp [L.eq_symm hab])
  rcases L.swap_cases a c with ⟨_, hx⟩ | ⟨hx, _⟩ | ⟨hx, _⟩ <;> simp_all

theorem CmpLaws.lt_of_eq_of_lt {α : Type} {cmp : α → α → Ordering} (L : CmpLaws cmp) {a b c : α}
    (hab : cmp a b = .eq) (hbc : cmp b c = .lt) : cmp a c = .lt := by
  have h1 : cmp a c ≠ .gt := L.leTrans a b c (by simp [hab]) (by simp [hbc])
  cases hac : cmp a c with
  | lt => rfl
  | gt => exact absurd hac h1
  | eq =>
    have : cmp b c = .eq := L.cmp_eq_trans (L.eq_symm hab) hac
    simp_all

theorem CmpLaws.lt_of_lt_of_eq {α : Type} {cmp : α → α → Ordering} (L : CmpLaws cmp) {a b c : α}
    (hab : cmp a b = .lt) (hbc : cmp b c = .eq) : cmp a c = .lt := by
  have h1 : cmp a c ≠ .gt := L.leTrans a b c (by simp [hab]) (by simp [hbc])
  cases hac : cmp a c with
  | lt => rfl
  | gt => exact absurd hac h1
  | eq =>
    have : cmp a b = .eq := L.cmp_eq_trans hac (L.eq_symm hbc)
    simp_all

theorem CmpLaws.cmp_lt_trans {α : Type} {cmp : α → α → Ordering} (L : CmpLaws cmp) {a b c : α}
    (hab : cmp a b = .lt) (hbc : cmp b c = .lt) : cmp a c = .lt := by
  have h1 : cmp a c ≠ .gt := L.leTrans a b c (by simp [hab]) (by simp [hbc])
  cases hac : cmp a c with
  | lt => rfl
  | gt => exact absurd hac h1
  | eq =>
    have h3 : cmp c b = .lt := L.lt_of_eq_of_lt (L.eq_symm hac) hab
    rcases L.swap_cases b c with ⟨_, h4⟩ | ⟨h4, _⟩ | ⟨h4, _⟩ <;> simp_all

theorem cmpLexLaws {α : Type} {cmp : α → α → Ordering} (L : CmpLaws cmp) :
    CmpLaws (cmpLex cmp) := by
  constructor
  · intro a b
    induction a generalizing b with
    | nil => cases b <;> simp [cmpLex, Ordering.swap]
    | cons x xs ih =>
      cases b with
      | nil => simp [cmpLex, Ordering.swap]
      | cons y ys =>
        simp only [cmpLex]
        rcases L.swap_cases x y with ⟨h1, h2⟩ | ⟨h1, h2⟩ | ⟨h1, h2⟩
        · rw [h1, h2]; rfl
        · rw [h1, h2]; exact ih ys
        · rw [h1, h2]; rfl
  · intro a b c hab hbc
    induction a generalizing b c with
    | nil =>
      cases c <;> simp [cmpLex]
    | cons x xs ih =>
      cases b with
      | nil => simp [cmpLex] at hab
      | cons y ys =>
        cases c with
        | nil => simp [cmpLex] at hbc
        | cons z zs =>
          simp only [cmpLex] at hab hbc ⊢
          cases hxy : cmp x y <;> rw [hxy] at hab <;> try exact absurd rfl hab
          all_goals cases hyz : cmp y z <;> rw [hyz] at hbc <;> try exact absurd rfl hbc
          · -- lt, lt
            simp [L.cmp_lt_trans hxy hyz]
          · -- lt, eq
            simp [L.lt_of_lt_of_eq hxy hyz]
          · -- eq, lt
            simp [L.lt_of_eq_of_lt hxy hyz]
          · -- eq, eq
            rw [L.cmp_eq_trans hxy hyz]
            exact ih ys zs hab hbc

theorem cmpCharLaws : CmpLaws cmpChar := natCmpLaws.comap Char.toNat

theorem cmpStrLaws : CmpLaws cmpStr := (cmpLexLaws cmpCharLaws).comap String.data

theorem cmpDateLaws : CmpLaws cmpDate := natCmpLaws.comap PyDate.enc

theorem cmpPartLaws : CmpLaws cmpPart := by
  constructor
  · intro a b
    cases a <;> cases b <;>
      simp only [cmpPart, cmpDate, KeyPart.rank] <;>
      first
        | exact Nat.compare_swap _ _
        | exact cmpStrLaws.symm _ _
  · intro a b c hab hbc
    cases a <;> cases b <;> cases c <;>
      simp only [cmpPart, cmpDate, KeyPart.rank] at hab hbc ⊢ <;>
      first
        | exact cmpStrLaws.leTrans _ _ _ hab hbc
        | (simp only [Nat.compare_ne_gt] at hab hbc ⊢; omega)

theorem cmpKeyLaws : CmpLaws cmpKey := cmpLexLaws cmpPartLaws

/-! ## Properties of the stable sort model -/

theorem tieBreakLE_total {α : Type} {cmp : α → α → Ordering} {tie : α → α → Bool}
    (L : CmpLaws cmp) (htie : ∀ a b, tie a b = true ∨ tie b a = true) (a b : α) :
    tieBreakLE cmp tie a b = true ∨ tieBreakLE cmp tie b a = true := by
  rcases L.swap_cases a b with ⟨h1, h2⟩ | ⟨h1, h2⟩ | ⟨h1, h2⟩ <;>
    simp [tieBreakLE, h1, h2]
  exact htie a b

theorem tieBreakLE_trans {α : Type} {cmp : α → α → Ordering} {tie : α → α → Bool}
    (L : CmpLaws cmp) (htie : ∀ a b c, tie a b = true → tie b c = true → tie a c = true)
    (a b c : α) (hab : tieBreakLE cmp tie a b = true) (hbc : tieBreakLE cmp tie b c = true) :
    tieBreakLE cmp tie a c = true := by
  have key : ∀ x y, tieBreakLE cmp tie x y = true →
      cmp x y = .lt ∨ (cmp x y = .eq ∧ tie x y = true) := by
    intro x y h
    unfold tieBreakLE at h
    cases hxy : cmp x y <;> rw [hxy] at h <;> simp_all
  unfold tieBreakLE
  rcases key a b hab with h1 | ⟨h1, t1⟩ <;> rcases key b c hbc with h2 | ⟨h2, t2⟩
  · rw [L.cmp_lt_trans h1 h2]
  · rw [L.lt_of_lt_of_eq h1 h2]
  · rw [L.lt_of_eq_of_lt h1 h2]
  · rw [L.cmp_eq_trans h1 h2]; exact htie a b c t1 t2

theorem rowCmpLaws (cfg : CSVReorderConfig) : CmpLaws (rowCmp cfg) := by
  cases hr : cfg.reverse
  · have h : rowCmp cfg = fun p q : Nat × Row =>
        cmpKey (create_sort_key cfg p.2) (create_sort_key cfg q.2) := by
      funext p q; simp [rowCmp, hr]
    rw [h]
    exact cmpKeyLaws.comap _
  · have h : rowCmp cfg = fun p q : Nat × Row =>
        cmpKey (create_sort_key cfg q.2) (create_sort_key cfg p.2) := by
      funext p q; simp [rowCmp, hr]
    rw [h]
    exact (cmpKeyLaws.comap (fun p : Nat × Row => create_sort_key cfg p.2)).flip

theorem rowLE_total (cfg : CSVReorderConfig) (p q : Nat × Row) :
    rowLE cfg p q = true ∨ rowLE cfg q p = true :=
  tieBreakLE_total (rowCmpLaws cfg) (fun a b => by
    rcases Nat.le_total a.1 b.1 with h | h <;> simp [h]) p q

theorem rowLE_trans (cfg : CSVReorderConfig) (p q r : Nat × Row)
    (h1 : rowLE cfg p q = true) (h2 : rowLE cfg q r = true) : rowLE cfg p r = true :=
  tieBreakLE_trans (rowCmpLaws cfg) (fun a b c hab hbc => by
    simp only [decide_eq_true_eq] at hab hbc ⊢; omega) p q r h1 h2

theorem insertSorted_perm {α : Type} (le : α → α → Bool) (x : α) (l : List α) :
    List.Perm (insertSorted le x l) (x :: l) := by
  induction l with
  | nil => simp [insertSorted]
  | cons y ys ih =>
    simp only [insertSorted]
    split
    · exact List.Perm.refl _
    · exact (ih.cons y).trans (List.Perm.swap x y ys)

theorem stableSort_perm {α : Type} (le : α → α → Bool) (l : List α) :
    List.Perm (stableSort le l) l := by
  induction l with
  | nil => simp [stableSort]
  | cons x xs ih =>
    exact (insertSorted_perm le x (stableSort le xs)).trans (ih.cons x)

theorem pairwise_insertSorted {α : Type} {le : α → α → Bool}
    (htot : ∀ a b, le a b = true ∨ le b a = true)
    (htrans : ∀ a b c, le a b = true → le b c = true → le a c = true)
    (x : α) {l : List α} (h : l.Pairwise (fun a b => le a b = true)) :
    (insertSorted le x l).Pairwise (fun a b => le a b = true) := by
  induction l with
  | nil => simp [insertSorted]
  | cons y ys ih =>
    rcases List.pairwise_cons.mp h with ⟨hy, hys⟩
    simp only [insertSorted]
    split
    · next hxy =>
      refine List.pairwise_cons.mpr ⟨?_, h⟩
      intro z hz
      rcases List.mem_cons.mp hz with rfl | hz
      · exact hxy
      · exact htrans x y z hxy (hy z hz)
    · next hxy =>
      have hyx : le y x = true := by
        rcases htot x y with h' | h'
        · exact absurd h' hxy
        · exact h'
      refine List.pairwise_cons.mpr ⟨?_, ih hys⟩
      intro z hz
      rcases List.mem_cons.mp ((insertSorted_perm le x ys).mem_iff.mp hz) with rfl | hz
      · exact hyx
      · exact hy z hz

theorem pairwise_stableSort {α : Type} {le : α → α → Bool}
    (htot : ∀ a b, le a b = true ∨ le b a = true)
    (htrans : ∀ a b c, le a b = true → le b c = true → le a c = true)
    (l : List α) : (stableSort le l).Pairwise (fun a b => le a b = true) := by
  induction l with
  | nil => simp [stableSort]
  | cons x xs ih => exact pairwise_insertSorted htot htrans x ih

theorem pySortIndexed_perm (cfg : CSVReorderConfig) (rows : List Row) :
    List.Perm (pySortIndexed cfg rows) rows.enum :=
  stableSort_perm (rowLE cfg) rows.enum

theorem pySortIndexed_pairwise (cfg : CSVReorderConfig) (rows : List Row) :
    (pySortIndexed cfg rows).Pairwise (fun p q => rowLE cfg p q = true) :=
  pairwise_stableSort (rowLE_total cfg) (rowLE_trans cfg) rows.enum

theorem pySortIndexed_fst_nodup (cfg : CSVReorderConfig) (rows : List Row) :
    ((pySortIndexed cfg rows).map Prod.fst).Nodup :=
  (((pySortIndexed_perm cfg rows).map Prod.fst).nodup_iff).mpr
    (List.nodup_enum_map_fst rows)

/-! ## Shared helper lemmas -/

theorem tryFormats_eq_findSome (t : String) (fs : List (List FTok)) :
    tryFormats t fs = fs.findSome? (strptime t) := by
  induction fs with
  | nil => rfl
  | cons f fs ih =>
    rw [tryFormats, List.findSome?_cons]
    cases strptime t f <;> simp [ih]

theorem reorder_csv_ok_rows {cfg : CSVReorderConfig} {f : CSVFile} {name outdir : String}
    {r : WrittenCSV} (h : reorder_csv cfg (some f) name outdir = .ok r) :
    r.rows = pySortRows cfg f.rows := by
  cases hf : f.fieldnames with
  | none => rw [reorder_csv, hf] at h; cases h
  | some fns =>
    simp only [reorder_csv, hf] at h
    split_ifs at h <;> try cases h
    rfl

theorem foldl_map_map {α β : Type} (g : α → β → β) (chs : List α) (l : List β) :
    chs.foldl (fun acc ch => acc.map (g ch)) l
      = l.map (fun c => chs.foldl (fun x ch => g ch x) c) := by
  induction chs generalizing l with
  | nil => simp
  | cons ch chs ih =>
    rw [List.foldl_cons, ih, List.map_map]
    rfl

theorem replace_foldl_eq_map (l : List Char) :
    invalid_chars.foldl (fun acc ch => acc.map (fun c => if c = ch then '_' else c)) l
      = l.map (fun c => if invalid_chars.contains c then '_' else c) := by
  rw [foldl_map_map]
  refine List.map_congr_left fun c _ => ?_
  by_cases h : invalid_chars.contains c = true
  · have h' : c ∈ invalid_chars := by simpa using h
    rw [if_pos h]
    fin_cases h' <;> decide
  · rw [if_neg h]
    have h' : c ∉ invalid_chars := by simpa using h
    simp only [invalid_chars, List.mem_cons, List.not_mem_nil, or_false, not_or] at h'
    obtain ⟨h1, h2, h3, h4, h5, h6, h7, h8, h9⟩ := h'
    simp only [invalid_chars, List.foldl_cons, List.foldl_nil,
      if_neg h1, if_neg h2, if_neg h3, if_neg h4, if_neg h5, if_neg h6, if_neg h7,
      if_neg h8, if_neg h9]

theorem dropWhile_headOK {α : Type} (p : α → Bool) (l : List α) :
    ∀ x ∈ (l.dropWhile p).head?, p x = false := by
  induction l with
  | nil => simp
  | cons a as ih =>
    by_cases h : p a = true
    · simpa [List.dropWhile_cons, h] using ih
    · simp only [Bool.not_eq_true] at h
      simp [List.dropWhile_cons, h]

theorem dropWhile_eq_self_of_headOK {α : Type} (p : α → Bool) (l : List α)
    (h : ∀ x ∈ l.head?, p x = false) : l.dropWhile p = l := by
  cases l with
  | nil => rfl
  | cons a as => simp [List.dropWhile_cons, h a (by simp)]

theorem stripEnds_no_new_mem {p : Char → Bool} {l : List Char} {c : Char}
    (h : c ∈ stripEnds p l) : c ∈ l := by
  unfold stripEnds at h
  rw [List.mem_reverse] at h
  have h2 := (List.dropWhile_sublist p).mem h
  rw [List.mem_reverse] at h2
  exact (List.dropWhile_sublist p).mem h2

theorem stripEnds_idem (p : Char → Bool) (l : List Char) :
    stripEnds p (stripEnds p l) = stripEnds p l := by
  set A := l.dropWhile p with hA
  set B := A.reverse.dropWhile p with hB
  have hstrip : stripEnds p l = B.reverse := rfl
  by_cases hBnil : B = []
  · rw [hstrip, hBnil]
    rfl
  · have hheadA : ∀ x ∈ A.head?, p x = false := dropWhile_headOK p l
    have hheadB : ∀ x ∈ B.head?, p x = false := dropWhile_headOK p A.reverse
    -- the last element of `B` is the first element of `A`
    obtain ⟨t, ht⟩ : ∃ t, t ++ B = A.reverse := List.dropWhile_suffix p
    have hlast : B.getLast? = A.head? := by
      rw [← List.getLast?_reverse A, ← ht, List.getLast?_append]
      cases hBeq : B.getLast? with
      | none => exact absurd (List.getLast?_eq_none_iff.mp hBeq) hBnil
      | some x => simp [Option.or]
    have hheadBrev : ∀ x ∈ B.reverse.head?, p x = false := by
      intro x hx
      rw [List.head?_reverse, hlast] at hx
      exact hheadA x hx
    rw [hstrip]
    unfold stripEnds
    rw [dropWhile_eq_self_of_headOK p B.reverse hheadBrev, List.reverse_reverse,
      dropWhile_eq_self_of_headOK p B hheadB]

theorem sanitize_data (s : String) :
    (sanitize_folder_name s).data
      = stripEnds isDotSpace
          (s.data.map (fun c => if invalid_chars.contains c then '_' else c)) := by
  unfold sanitize_folder_name
  rw [replace_foldl_eq_map]

theorem sanitize_data_no_invalid (s : String) :
    ∀ c ∈ (sanitize_folder_name s).data, invalid_chars.contains c = false := by
  intro c hc
  rw [sanitize_data] at hc
  have hc' := stripEnds_no_new_mem hc
  rcases List.mem_map.mp hc' with ⟨c0, _, rfl⟩
  by_cases h : invalid_chars.contains c0 = true
  · rw [if_pos h]; decide
  · rw [if_neg h]; simpa using h

theorem processLanguageRow_foldl (hm : List String) (base sep lang : String)
    (rows : List Row) (acc : List String × Nat) :
    rows.foldl (processLanguageRow hm base sep lang) acc
      = (acc.1 ++ rows.filterMap (fun row =>
            if pyUpper (pyStrip (rowGet row "language")) = pyUpper lang then
              (if folderParts hm row = [] then none
               else some (osPathJoin base (sanitize_folder_name
                 (String.intercalate sep (folderParts hm row)))))
            else none),
         acc.2 + rows.countP (fun row =>
            decide (pyUpper (pyStrip (rowGet row "language")) ≠ pyUpper lang))) := by
  induction rows generalizing acc with
  | nil => simp
  | cons r rs ih =>
    rw [List.foldl_cons, ih, List.filterMap_cons, List.countP_cons]
    by_cases hl : pyUpper (pyStrip (rowGet r "language")) = pyUpper lang
    · by_cases hp : folderParts hm r = []
      · simp [processLanguageRow, hl, hp]
      · simp [processLanguageRow, hl, hp, List.append_assoc]
    · simp [processLanguageRow, hl] <;> omega

theorem resolveAutoHeaders_eq_map (hm : List String) :
    resolveAutoHeaders hm = hm.map (fun h =>
      if pyLower h = "year" ∨ pyLower h = "size" then h else h ++ "_en") := by
  have key : ∀ (l : List String) (acc : List String),
      l.foldl (fun acc header =>
        if no_suffix_headers.contains (pyLower header) then acc ++ [header]
        else acc ++ [header ++ "_en"]) acc
        = acc ++ l.map (fun h =>
            if pyLower h = "year" ∨ pyLower h = "size" then h else h ++ "_en") := by
    intro l
    induction l with
    | nil => simp
    | cons x xs ih =>
      intro acc
      rw [List.foldl_cons]
      by_cases hx : pyLower x = "year" ∨ pyLower x = "size"
      · have hc : no_suffix_headers.contains (pyLower x) = true := by
          rcases hx with hx | hx <;> simp [no_suffix_headers, hx]
        rw [if_pos hc, ih, List.map_cons, if_pos hx, List.append_assoc,
          List.singleton_append]
      · have hc : ¬ no_suffix_headers.contains (pyLower x) = true := by
          simp only [no_suffix_headers, List.contains_cons, List.contains_nil,
            Bool.or_eq_true, beq_iff_eq, Bool.false_eq_true, or_false]
          exact hx
        rw [if_neg hc, ih, List.map_cons, if_neg hx, List.append_assoc,
          List.singleton_append]
  have h := key hm []
  rw [List.nil_append] at h
  exact h

/-! ## The claims -/

/-- C3 (`code_bug` evidence): the sort key built for a date column holds a
parsed `datetime` for `"2020-01-15"` but the raw string for
`"not-a-date"`, Python cannot compare the two resulting tuples
(`pyCmpKey` is `none`, modelling the `TypeError`), and reordering a CSV
holding both values in the date column therefore fails instead of
sorting: the code does not normalise unparsed values to a comparable
sentinel as the spec requires. -/
theorem mixed_date_string_keys_incomparable :
    create_sort_key ⟨[⟨"d", true⟩], false, false, "language", ["EN", "CN"], "sorted_"⟩
        [("d", "2020-01-15")] = [.date ⟨2020, 1, 15⟩] ∧
    create_sort_key ⟨[⟨"d", true⟩], false, false, "language", ["EN", "CN"], "sorted_"⟩
        [("d", "not-a-date")] = [.str "not-a-date"] ∧
    pyCmpKey [.date ⟨2020, 1, 15⟩] [.str "not-a-date"] = none ∧
    reorder_csv ⟨[⟨"d", true⟩], false, false, "language", ["EN", "CN"], "sorted_"⟩
        (some ⟨some ["d"], [[("d", "2020-01-15")], [("d", "not-a-date")]]⟩)
        "in.csv" "out"
      = .error .typeError := by decide

/-- C4 counterexample: on a missing input file the language-mode folder
derivation fails, but the base output directory has already been created
(`Path(base_path).mkdir` runs before the file is even opened), so "no
directory (including the base output directory) has been created" is
false. -/
theorem folder_base_dir_created_on_error_cx :
    (create_folders_from_csv_language_en none ["title"] "out" "_" "EN").result
        = .error .fileNotFound ∧
    (create_folders_from_csv_language_en none ["title"] "out" "_" "EN").createdDirs
        = ["out"] ∧
    (create_folders_from_csv_language_en none ["title"] "out" "_" "EN").createdDirs
        ≠ [] := by decide

/-- C4 (amended): for both folder-derivation operations every failure
(missing file, missing requested headers, missing `language` column,
headerless CSV) aborts before any row folder is created; only the base
output directory — created unconditionally up front — exists, i.e. the
created-directory trace is exactly `[base_path]`. -/
theorem folder_errors_abort_before_row_folders (csv_file : Option CSVFile)
    (hm : List String) (base sep lang : String) :
    (∀ e, (create_folders_from_csv_language_en csv_file hm base sep lang).result = .error e →
      (create_folders_from_csv_language_en csv_file hm base sep lang).createdDirs = [base]) ∧
    (∀ e, (create_folders_from_csv_auto_en csv_file hm base sep).result = .error e →
      (create_folders_from_csv_auto_en csv_file hm base sep).createdDirs = [base]) := by
  constructor
  · intro e he
    cases csv_file with
    | none => rfl
    | some f =>
      cases hf : f.fieldnames with
      | none => simp [create_folders_from_csv_language_en, hf]
      | some fns =>
        simp only [create_folders_from_csv_language_en, hf] at he ⊢
        split_ifs at he ⊢ <;> simp_all
  · intro e he
    cases csv_file with
    | none => rfl
    | some f =>
      cases hf : f.fieldnames with
      | none => simp [create_folders_from_csv_auto_en, hf]
      | some fns =>
        simp only [create_folders_from_csv_auto_en, hf] at he ⊢
        split_ifs at he ⊢ <;> simp_all

/-- Witness for the amended C4 theorem at a concrete input. -/
theorem folder_errors_abort_witness :
    (create_folders_from_csv_language_en none ["t"] "outw" "_" "EN").createdDirs
      = ["outw"] :=
  (folder_errors_abort_before_row_folders none ["t"] "outw" "_" "EN").1
    .fileNotFound (by decide)

/-- C5: `sanitize_folder_name` removes every filesystem-invalid character
(`< > : " / \ | ? *`) from its result, and it is idempotent. -/
theorem sanitize_folder_name_spec (s : String) :
    (∀ c ∈ (sanitize_folder_name s).data, c ∉ invalid_chars) ∧
    sanitize_folder_name (sanitize_folder_name s) = sanitize_folder_name s := by
  constructor
  · intro c hc hmem
    have h := sanitize_data_no_invalid s c hc
    have h2 : invalid_chars.contains c = true := List.elem_eq_true_of_mem hmem
    rw [h2] at h
    cases h
  · have hpt : ∀ c ∈ (sanitize_folder_name s).data,
        (if invalid_chars.contains c then '_' else c) = c := by
      intro c hc
      rw [if_neg (by rw [sanitize_data_no_invalid s c hc]; decide)]
    have hmap : ((sanitize_folder_name s).data).map
        (fun c => if invalid_chars.contains c then '_' else c)
          = (sanitize_folder_name s).data :=
      (List.map_congr_left hpt).trans (List.map_id _)
    apply String.ext
    rw [sanitize_data, hmap, sanitize_data]
    exact stripEnds_idem _ _

/-- Witness for C5 at a concrete input. -/
theorem sanitize_folder_name_spec_witness :
    sanitize_folder_name (sanitize_folder_name " a<b* ") = sanitize_folder_name " a<b* " :=
  (sanitize_folder_name_spec " a<b* ").2

/-- C6: `parse_date` tries `DATE_FORMATS` in order and returns the first
successful parse (`List.findSome?` is exactly first-success), returns the
stripped string unchanged when no pattern matches, and in particular
parses `"2020-01-15"` to 2020-01-15 while returning `"not-a-date"`
unchanged. -/
theorem parse_date_spec :
    parse_date "2020-01-15" = .date ⟨2020, 1, 15⟩ ∧
    parse_date "not-a-date" = .str "not-a-date" ∧
    ∀ s : String, pyStrip s ≠ "" →
      parse_date s =
        (match DATE_FORMATS.findSome? (strptime (pyStrip s)) with
         | some d => DateOrStr.date d
         | none => DateOrStr.str (pyStrip s)) := by
  refine ⟨by decide, by decide, ?_⟩
  intro s hs
  rw [parse_date, if_neg hs, tryFormats_eq_findSome]

/-- Witness for C6's universally quantified clause at a concrete input. -/
theorem parse_date_spec_witness : parse_date "31/12/1999" = .date ⟨1999, 12, 31⟩ := by
  have h := parse_date_spec.2.2 "31/12/1999" (by decide)
  exact h.trans (by decide)

/-- C7: in auto-suffix mode every logical header resolves to
`<header>_en` except case-insensitive `year`/`size`, which pass through;
when any resolved name is missing from the CSV header the operation
fails with exactly the list of missing resolved names and creates no row
folder (only the unconditional base directory). -/
theorem auto_suffix_resolution (hm fns : List String) (rows : List Row) (base sep : String) :
    resolveAutoHeaders hm = hm.map (fun h =>
      if pyLower h = "year" ∨ pyLower h = "size" then h else h ++ "_en") ∧
    ((resolveAutoHeaders hm).filter (fun h => !fns.contains h) ≠ [] →
      create_folders_from_csv_auto_en (some ⟨some fns, rows⟩) hm base sep
        = ⟨.error (.headersNotFound
              ((resolveAutoHeaders hm).filter (fun h => !fns.contains h))),
           [base], 0⟩) := by
  refine ⟨resolveAutoHeaders_eq_map hm, ?_⟩
  intro hmiss
  simp only [create_folders_from_csv_auto_en]
  rw [if_pos hmiss]

/-- Witness for C7 at a concrete input: `title` resolves to `title_en`,
which is missing, so the run fails naming `title_en` and creates only the
base directory. -/
theorem auto_suffix_resolution_witness :
    create_folders_from_csv_auto_en (some ⟨some ["foo"], []⟩) ["title"] "b" "_"
      = ⟨.error (.headersNotFound ["title_en"]), ["b"], 0⟩ := by
  have h := (auto_suffix_resolution ["title"] ["foo"] [] "b" "_").2 (by decide)
  exact h.trans (by decide)

/-- C8: in language-filter mode, when the requested headers and the
`language` column are present, the run succeeds; a row is skipped (and
tallied) exactly when its stripped, uppercased `language` value differs
from the uppercased filter, and each matching row contributes
`base/sanitize(sep-join of its stripped non-empty requested values)`
unless all parts are empty, in which case no folder is created and no
error is raised. -/
theorem language_filter_row_processing (fns : List String) (rows : List Row)
    (hm : List String) (base sep lang : String)
    (hmiss : hm.filter (fun h => !fns.contains h) = [])
    (hlang : fns.contains "language" = true) :
    create_folders_from_csv_language_en (some ⟨some fns, rows⟩) hm base sep lang
      = { result := .ok (rows.filterMap (fun row =>
            if pyUpper (pyStrip (rowGet row "language")) = pyUpper lang then
              (if folderParts hm row = [] then none
               else some (osPathJoin base (sanitize_folder_name
                 (String.intercalate sep (folderParts hm row)))))
            else none)),
          createdDirs := base :: rows.filterMap (fun row =>
            if pyUpper (pyStrip (rowGet row "language")) = pyUpper lang then
              (if folderParts hm row = [] then none
               else some (osPathJoin base (sanitize_folder_name
                 (String.intercalate sep (folderParts hm row)))))
            else none),
          skippedRows := rows.countP (fun row =>
            decide (pyUpper (pyStrip (rowGet row "language")) ≠ pyUpper lang)) } := by
  simp only [create_folders_from_csv_language_en]
  rw [if_neg (fun hne => hne hmiss), if_neg (by rw [hlang]; decide)]
  rw [processLanguageRow_foldl]
  simp

/-- Witness for C8 at the spec's worked example: the EN row yields
`out/2000_A`, the CN row is skipped. -/
theorem language_filter_row_processing_witness :
    create_folders_from_csv_language_en
        (some ⟨some ["language", "year", "title"],
          [[("language", "EN"), ("year", "2000"), ("title", "A")],
           [("language", "CN"), ("year", "2001"), ("title", "B")]]⟩)
        ["year", "title"] "out" "_" "EN"
      = ⟨.ok ["out/2000_A"], ["out", "out/2000_A"], 1⟩ := by
  have h := language_filter_row_processing ["language", "year", "title"]
    [[("language", "EN"), ("year", "2000"), ("title", "A")],
     [("language", "CN"), ("year", "2001"), ("title", "B")]]
    ["year", "title"] "out" "_" "EN" (by decide) (by decide)
  exact h.trans (by decide)

/-- C9: the safe reorder variant returns exactly the ordinary reorder's
result with every error collapsed to `none`: it is `none` precisely when
`reorder_csv` fails, and returns the identical written output when it
succeeds. -/
theorem reorder_csv_safe_spec (cfg : CSVReorderConfig) (file : Option CSVFile)
    (input_name output_directory : String) :
    reorder_csv_safe cfg file input_name output_directory
      = (reorder_csv cfg file input_name output_directory).toOption ∧
    ((∃ e, reorder_csv cfg file input_name output_directory = .error e) ↔
      reorder_csv_safe cfg file input_name output_directory = none) ∧
    (∀ r, reorder_csv cfg file input_name output_directory = .ok r ↔
      reorder_csv_safe cfg file input_name output_directory = some r) := by
  cases h : reorder_csv cfg file input_name output_directory <;>
    simp [reorder_csv_safe, h, Except.toOption]

/-- Witness for C9 at a concrete failing input. -/
theorem reorder_csv_safe_spec_witness :
    reorder_csv_safe ⟨[⟨"t", false⟩], false, false, "language", ["EN", "CN"], "sorted_"⟩
      none "in.csv" "out" = none :=
  (reorder_csv_safe_spec ⟨[⟨"t", false⟩], false, false, "language", ["EN", "CN"], "sorted_"⟩
      none "in.csv" "out").2.1.mp ⟨.notFound, by decide⟩

/-- C10: the language-priority component of the sort key is an exact,
case-sensitive lookup after stripping — a value is ranked below
`len(language_order)` iff it occurs verbatim, so `"en"` against
`["EN", "CN"]` ranks 2 (unknown) — whereas the folder derivation's
language filter compares case-insensitively and accepts `" en "`. -/
theorem language_rank_exact_case_sensitive :
    (∀ (lang : String) (order : List String),
      order.indexOf lang = order.length ↔ lang ∉ order) ∧
    create_sort_key ⟨[⟨"t", false⟩], false, true, "language", ["EN", "CN"], "sorted_"⟩
        [("language", "en"), ("t", "x")]
      = [.int 2, .str "x"] ∧
    processLanguageRow ["t"] "b" "_" "EN" ([], 0) [("language", " en "), ("t", "x")]
      = (["b/x"], 0) := by
  refine ⟨?_, by decide, by decide⟩
  intro lang order
  exact List.indexOf_eq_length

/-- Witness for C10's universally quantified clause at a concrete input. -/
theorem language_rank_witness : (["EN", "CN"] : List String).indexOf "en" = 2 := by
  have h := (language_rank_exact_case_sensitive.1 "en" ["EN", "CN"]).mpr (by decide)
  simpa using h

/-- C1: whenever `reorder_csv` succeeds, the written rows are the stable
sort of the input rows, and rows whose composite sort keys compare equal
keep their relative input order: at any two output positions `a < b`
holding equal-key rows, the original input index at position `a` is
strictly smaller than the one at position `b`.  This holds for every
configuration, `reverse` included (CPython's `sorted` keeps ties in input
order in both directions). -/
theorem reorder_csv_stable_ties (cfg : CSVReorderConfig) (f : CSVFile)
    (input_name output_directory : String) (r : WrittenCSV)
    (h : reorder_csv cfg (some f) input_name output_directory = .ok r)
    (a b : Nat) (ha : a < (pySortIndexed cfg f.rows).length)
    (hb : b < (pySortIndexed cfg f.rows).length) (hab : a < b)
    (heq : cmpKey (create_sort_key cfg ((pySortIndexed cfg f.rows).get ⟨a, ha⟩).2)
                  (create_sort_key cfg ((pySortIndexed cfg f.rows).get ⟨b, hb⟩).2) = .eq) :
    r.rows = (pySortIndexed cfg f.rows).map Prod.snd ∧
    ((pySortIndexed cfg f.rows).get ⟨a, ha⟩).1
      < ((pySortIndexed cfg f.rows).get ⟨b, hb⟩).1 := by
  refine ⟨reorder_csv_ok_rows h, ?_⟩
  have hp := pySortIndexed_pairwise cfg f.rows
  have hrel : rowLE cfg ((pySortIndexed cfg f.rows).get ⟨a, ha⟩)
      ((pySortIndexed cfg f.rows).get ⟨b, hb⟩) = true := by
    have h' := List.pairwise_iff_getElem.mp hp a b ha hb hab
    simpa using h'
  have hcmp : rowCmp cfg ((pySortIndexed cfg f.rows).get ⟨a, ha⟩)
      ((pySortIndexed cfg f.rows).get ⟨b, hb⟩) = .eq := by
    unfold rowCmp
    split
    · exact cmpKeyLaws.eq_symm heq
    · exact heq
  have hle : ((pySortIndexed cfg f.rows).get ⟨a, ha⟩).1
      ≤ ((pySortIndexed cfg f.rows).get ⟨b, hb⟩).1 := by
    unfold rowLE tieBreakLE at hrel
    rw [hcmp] at hrel
    simpa using hrel
  have ha' : a < ((pySortIndexed cfg f.rows).map Prod.fst).length := by simpa using ha
  have hb' : b < ((pySortIndexed cfg f.rows).map Prod.fst).length := by simpa using hb
  have hne : ((pySortIndexed cfg f.rows).get ⟨a, ha⟩).1
      ≠ ((pySortIndexed cfg f.rows).get ⟨b, hb⟩).1 := by
    intro hfst
    have h2 : ((pySortIndexed cfg f.rows).map Prod.fst)[a]
        = ((pySortIndexed cfg f.rows).map Prod.fst)[b] := by
      rw [List.getElem_map, List.getElem_map]
      exact hfst
    have h3 := (List.Nodup.getElem_inj_iff (pySortIndexed_fst_nodup cfg f.rows)).mp h2
    omega
  omega

/-- Witness for C1 at a concrete tied input: the two rows' keys both
lowercase to `"a"`, the reorder succeeds, and position 0 of the output
carries a smaller input index than position 1. -/
theorem reorder_csv_stable_ties_witness :
    ((pySortIndexed ⟨[⟨"t", false⟩], false, false, "language", ["EN", "CN"], "sorted_"⟩
        [[("t", "a"), ("u", "1")], [("t", "A"), ("u", "2")]]).get ⟨0, by decide⟩).1
      < ((pySortIndexed ⟨[⟨"t", false⟩], false, false, "language", ["EN", "CN"], "sorted_"⟩
        [[("t", "a"), ("u", "1")], [("t", "A"), ("u", "2")]]).get ⟨1, by decide⟩).1 :=
  (reorder_csv_stable_ties
    ⟨[⟨"t", false⟩], false, false, "language", ["EN", "CN"], "sorted_"⟩
    ⟨some ["t", "u"], [[("t", "a"), ("u", "1")], [("t", "A"), ("u", "2")]]⟩
    "in.csv" "out"
    ⟨"out/sorted_in.csv", ["t", "u"], [[("t", "a"), ("u", "1")], [("t", "A"), ("u", "2")]]⟩
    (by decide) 0 1 (by decide) (by decide) (by decide) (by decide)).2

/-- C2 counterexample: on two rows whose composite keys tie (`"a"` and
`"A"` both lowercase to `"a"`), reverse mode keeps them in input order —
CPython's `sorted(reverse=True)` preserves ties — while the wholesale
reversal of the unreversed output would swap them, so the two orders
differ. -/
theorem reverse_not_wholesale_reversal_cx :
    reorder_csv ⟨[⟨"t", false⟩], true, false, "language", ["EN", "CN"], "sorted_"⟩
        (some ⟨some ["t", "u"], [[("t", "a"), ("u", "1")], [("t", "A"), ("u", "2")]]⟩)
        "in.csv" "out"
      = .ok ⟨"out/sorted_in.csv", ["t", "u"],
          [[("t", "a"), ("u", "1")], [("t", "A"), ("u", "2")]]⟩ ∧
    reorder_csv ⟨[⟨"t", false⟩], false, false, "language", ["EN", "CN"], "sorted_"⟩
        (some ⟨some ["t", "u"], [[("t", "a"), ("u", "1")], [("t", "A"), ("u", "2")]]⟩)
        "in.csv" "out"
      = .ok ⟨"out/sorted_in.csv", ["t", "u"],
          [[("t", "a"), ("u", "1")], [("t", "A"), ("u", "2")]]⟩ ∧
    ([[("t", "a"), ("u", "1")], [("t", "A"), ("u", "2")]] : List Row)
      ≠ ([[("t", "a"), ("u", "1")], [("t", "A"), ("u", "2")]] : List Row).reverse := by
  decide

theorem rowLE_ne_gt {cfg : CSVReorderConfig} {p q : Nat × Row}
    (h : rowLE cfg p q = true) : rowCmp cfg p q ≠ .gt := by
  intro hgt
  unfold rowLE tieBreakLE at h
  rw [hgt] at h
  cases h

/-- C2 (amended): with `reverse` set the output is the stable descending
order (ties keep input order), and it coincides with the wholesale
reversal of the unreversed output exactly when no two distinct rows'
composite keys compare equal: under that hypothesis, reverse output =
reverse of ascending output. -/
theorem reorder_reverse_eq_reversal_of_distinct_keys (cfg : CSVReorderConfig)
    (f : CSVFile) (name outdir : String) (r1 r2 : WrittenCSV)
    (hdist : ∀ i j (hi : i < f.rows.length) (hj : j < f.rows.length), i ≠ j →
      cmpKey (create_sort_key cfg (f.rows.get ⟨i, hi⟩))
             (create_sort_key cfg (f.rows.get ⟨j, hj⟩)) ≠ .eq)
    (h1 : reorder_csv { cfg with reverse := true } (some f) name outdir = .ok r1)
    (h2 : reorder_csv { cfg with reverse := false } (some f) name outdir = .ok r2) :
    r1.rows = r2.rows.reverse := by
  rw [reorder_csv_ok_rows h1, reorder_csv_ok_rows h2]
  show (pySortIndexed { cfg with reverse := true } f.rows).map Prod.snd
      = ((pySortIndexed { cfg with reverse := false } f.rows).map Prod.snd).reverse
  rw [← List.map_reverse]
  congr 1
  -- both sides are sorted for the weak descending-by-key relation and are
  -- permutations of the enumerated rows, and under `hdist` that relation
  -- is antisymmetric on their members, so they coincide.
  have hmem : ∀ p : Nat × Row, p ∈ f.rows.enum →
      ∃ hp : p.1 < f.rows.length, f.rows.get ⟨p.1, hp⟩ = p.2 := by
    intro p hp
    have h' := List.mem_enum_iff_getElem?.mp hp
    rcases List.getElem?_eq_some_iff.mp h' with ⟨hlt, hget⟩
    exact ⟨hlt, by simpa using hget⟩
  have hA : (pySortIndexed { cfg with reverse := true } f.rows).Pairwise
      (fun p q : Nat × Row =>
        cmpKey (create_sort_key cfg q.2) (create_sort_key cfg p.2) ≠ .gt) := by
    refine (pySortIndexed_pairwise { cfg with reverse := true } f.rows).imp ?_
    intro p q hle
    exact rowLE_ne_gt hle
  have hB : ((pySortIndexed { cfg with reverse := false } f.rows).reverse).Pairwise
      (fun p q : Nat × Row =>
        cmpKey (create_sort_key cfg q.2) (create_sort_key cfg p.2) ≠ .gt) := by
    rw [List.pairwise_reverse]
    refine (pySortIndexed_pairwise { cfg with reverse := false } f.rows).imp ?_
    intro p q hle
    exact rowLE_ne_gt hle
  have hanti : ∀ p q : Nat × Row, p ∈ pySortIndexed { cfg with reverse := true } f.rows →
      q ∈ (pySortIndexed { cfg with reverse := false } f.rows).reverse →
      cmpKey (create_sort_key cfg q.2) (create_sort_key cfg p.2) ≠ .gt →
      cmpKey (create_sort_key cfg p.2) (create_sort_key cfg q.2) ≠ .gt → p = q := by
    intro p q hpA hqB hpq hqp
    have hpE : p ∈ f.rows.enum :=
      (pySortIndexed_perm { cfg with reverse := true } f.rows).mem_iff.mp hpA
    have hqE : q ∈ f.rows.enum :=
      ((List.reverse_perm _).trans
        (pySortIndexed_perm { cfg with reverse := false } f.rows)).mem_iff.mp hqB
    have heq : cmpKey (create_sort_key cfg p.2) (create_sort_key cfg q.2) = .eq := by
      rcases cmpKeyLaws.swap_cases (create_sort_key cfg p.2) (create_sort_key cfg q.2)
        with ⟨hx, hy⟩ | ⟨hx, _⟩ | ⟨hx, hy⟩
      · exact absurd hy hpq
      · exact hx
      · exact absurd hx hqp
    obtain ⟨hplt, hpget⟩ := hmem p hpE
    obtain ⟨hqlt, hqget⟩ := hmem q hqE
    by_cases hij : p.1 = q.1
    · have hsnd : p.2 = q.2 := by
        rw [← hpget, ← hqget]
        congr 1
        exact Fin.ext hij
      exact Prod.ext hij hsnd
    · exfalso
      apply hdist p.1 q.1 hplt hqlt hij
      rw [hpget, hqget]
      exact heq
  have hperm : List.Perm (pySortIndexed { cfg with reverse := true } f.rows)
      ((pySortIndexed { cfg with reverse := false } f.rows).reverse) :=
    (pySortIndexed_perm { cfg with reverse := true } f.rows).trans
      ((pySortIndexed_perm { cfg with reverse := false } f.rows).symm.trans
        (List.reverse_perm _).symm)
  exact List.Perm.eq_of_sorted hanti hA hB hperm

/-- Witness for the amended C2 theorem at a concrete input with distinct
keys (`"b"` vs `"a"`): the reverse-mode output is the reversal of the
ascending output. -/
theorem reorder_reverse_witness :
    (WrittenCSV.mk "out/sorted_in.csv" ["t"] [[("t", "b")], [("t", "A")]]).rows
      = (WrittenCSV.mk "out/sorted_in.csv" ["t"] [[("t", "A")], [("t", "b")]]).rows.reverse :=
  reorder_reverse_eq_reversal_of_distinct_keys
    ⟨[⟨"t", false⟩], false, false, "language", ["EN", "CN"], "sorted_"⟩
    ⟨some ["t"], [[("t", "b")], [("t", "A")]]⟩ "in.csv" "out"
    ⟨"out/sorted_in.csv", ["t"], [[("t", "b")], [("t", "A")]]⟩
    ⟨"out/sorted_in.csv", ["t"], [[("t", "A")], [("t", "b")]]⟩
    (by
      intro i j hi hj hne
      have hi2 : i < 2 := by simpa using hi
      have hj2 : j < 2 := by simpa using hj
      interval_cases i <;> interval_cases j <;>
        first
          | exact absurd rfl hne
          | (simp only [List.get_eq_getElem, List.getElem_cons_zero,
              List.getElem_cons_succ]; decide))
    (by decide) (by decide)

end CSVFolderGen
